import Mathlib

/-!
Verification of the document-extraction pipeline
(NovoNordiskHackathon/full_pipeline_integration).

The Python sources are shallowly embedded: strings are Lean `String`s,
Python dict-shaped document nodes become an inductive tree type, floats are
modelled exactly by `ℚ`, and regular-expression primitives are either
translated into explicit character scanners (when a concrete default
pattern is fixed in the source) or abstracted as function parameters (when
the pattern list is configuration data and the property under proof does
not depend on it).  Fuel arguments appear where the Python loop has no
structural termination measure; each fuel value is an upper bound on the
number of iterations the Python loop can perform on that input, so the
fallback branch is unreachable.
-/

namespace Pipeline


/-! ### Python string primitives

`pyStrip` models Python `str.strip()` (whitespace trim; we restrict to the
ASCII whitespace actually occurring in the documents).  `pyLower` models
`str.lower()` on the ASCII range (the configuration patterns and form codes
in this repository are ASCII). -/

/-- Python whitespace for `str.strip()` and the regex class `\s`
(ASCII model). -/
def isPySpace (c : Char) : Bool :=
  c = ' ' ∨ c = '\t' ∨ c = '\n' ∨ c = '\r' ∨ c = '\x0b' ∨ c = '\x0c'

def pyStrip (s : String) : String :=
  ⟨((s.data.dropWhile isPySpace).reverse.dropWhile isPySpace).reverse⟩

def lowerChar (c : Char) : Char :=
  if 65 ≤ c.toNat ∧ c.toNat ≤ 90 then Char.ofNat (c.toNat + 32) else c

def pyLower (s : String) : String := ⟨s.data.map lowerChar⟩

def upperChar (c : Char) : Char :=
  if 97 ≤ c.toNat ∧ c.toNat ≤ 122 then Char.ofNat (c.toNat - 32) else c

def pyUpper (s : String) : String := ⟨s.data.map upperChar⟩

def isAsciiDigit (c : Char) : Bool := 48 ≤ c.toNat ∧ c.toNat ≤ 57

def isAsciiLetter (c : Char) : Bool :=
  (65 ≤ c.toNat ∧ c.toNat ≤ 90) ∨ (97 ≤ c.toNat ∧ c.toNat ≤ 122)

/-- Word character in the sense of the regex `\b` boundary (`[A-Za-z0-9_]`,
ASCII model). -/
def isWordChar (c : Char) : Bool :=
  isAsciiDigit c || isAsciiLetter c || c = '_'

def listStarts : List Char → List Char → Bool
  | _, [] => true
  | [], _ :: _ => false
  | c :: cs, p :: ps => c = p && listStarts cs ps

/-- Python `str.startswith` (also used for the dict-name checks). -/
def strStartsWith (s pat : String) : Bool := listStarts s.data pat.data

/-! ### difflib.SequenceMatcher(None, a, b).ratio()

`fuzzy_match` in `backend/modules/common_matrix.py` (lines 14-18) lowercases
both strings and returns `SequenceMatcher(None, a, b).ratio()`.  The
standard-library matcher is translated here: `b2j` (with the autojunk
pruning of popular elements for `len(b) >= 200`), `find_longest_match`
(inner dynamic-programming loop plus the two non-junk extension loops; the
junk-extension loops are omitted because with `isjunk=None` the junk set is
empty), the summed block sizes of `get_matching_blocks`, and
`_calculate_ratio`.  Floats are modelled exactly by `ℚ`. -/

/-- Positions of `c` in `b` (ascending), as in `SequenceMatcher.__chain_b`:
when `len(b) >= 200`, elements occurring more than `len(b) // 100 + 1`
times are dropped as popular (autojunk). -/
def jIndices (b : List Char) (c : Char) : List Nat :=
  if 200 ≤ b.length ∧ b.length / 100 + 1 < b.count c then []
  else (List.range b.length).filter (fun j => b.getD j ' ' = c)

structure MatchBlock where
  ai : Nat
  bj : Nat
  size : Nat
  deriving Repr, DecidableEq

/-- One step of the `j` loop of `find_longest_match`: given the previous
row function `j2len` and the candidate positions of `a[i]` in `b`, build the
new row and update the best block (strict improvement only, so the
earliest maximal block wins, as in CPython). -/
def flmRow (i : Nat) (js : List Nat) (j2len : Nat → Nat) :
    (Nat → Nat) × (MatchBlock → MatchBlock) :=
  js.foldl
    (fun acc j =>
      let newj2len := acc.1
      let k := (if j = 0 then 0 else j2len (j - 1)) + 1
      ( fun x => if x = j then k else newj2len x,
        fun best =>
          let best := acc.2 best
          if best.size < k then ⟨i + 1 - k, j + 1 - k, k⟩ else best ))
    (fun _ => 0, id)

def flmLoop (a b : List Char) (alo ahi blo bhi : Nat) : MatchBlock :=
  let r :=
    ((List.range ahi).drop alo).foldl
      (fun (acc : (Nat → Nat) × MatchBlock) i =>
        let js := (jIndices b (a.getD i ' ')).filter (fun j => blo ≤ j ∧ j < bhi)
        let row := flmRow i js acc.1
        (row.1, row.2 acc.2))
      (fun _ => 0, ⟨alo, blo, 0⟩)
  r.2

/-- Left extension loop of `find_longest_match` (no junk, so the condition
is plain equality of the adjacent characters).  Fuel bounds the iteration
count; `besti - alo` steps suffice. -/
def extendLeft (a b : List Char) (alo blo : Nat) :
    Nat → MatchBlock → MatchBlock
  | 0, m => m
  | fuel + 1, m =>
    if alo < m.ai ∧ blo < m.bj ∧ a.getD (m.ai - 1) ' ' = b.getD (m.bj - 1) '!' then
      extendLeft a b alo blo fuel ⟨m.ai - 1, m.bj - 1, m.size + 1⟩
    else m

def extendRight (a b : List Char) (ahi bhi : Nat) :
    Nat → MatchBlock → MatchBlock
  | 0, m => m
  | fuel + 1, m =>
    if m.ai + m.size < ahi ∧ m.bj + m.size < bhi ∧
        a.getD (m.ai + m.size) ' ' = b.getD (m.bj + m.size) '!' then
      extendRight a b ahi bhi fuel ⟨m.ai, m.bj, m.size + 1⟩
    else m

def findLongestMatch (a b : List Char) (alo ahi blo bhi : Nat) : MatchBlock :=
  let m := flmLoop a b alo ahi blo bhi
  let m := extendLeft a b alo blo m.ai m
  extendRight a b ahi bhi (ahi + bhi) m

/-- Sum of the sizes of all matching blocks (the recursion of
`get_matching_blocks`; only the total is needed by `ratio`).  Fuel bounds
the recursion depth: every recursive call shrinks `(ahi-alo)+(bhi-blo)` by
at least one, so `la + lb + 1` suffices from the top. -/
def totalMatches (a b : List Char) :
    Nat → Nat → Nat → Nat → Nat → Nat
  | 0, _, _, _, _ => 0
  | fuel + 1, alo, ahi, blo, bhi =>
    let m := findLongestMatch a b alo ahi blo bhi
    if m.size = 0 then 0
    else
      m.size + totalMatches a b fuel alo m.ai blo m.bj +
        totalMatches a b fuel (m.ai + m.size) ahi (m.bj + m.size) bhi

/-- `SequenceMatcher(None, a, b).ratio()`, exactly over `ℚ`
(`_calculate_ratio`: `2.0 * matches / length` with `1.0` for two empty
strings). -/
def ratioQ (a b : String) : ℚ :=
  let la := a.data.length
  let lb := b.data.length
  if la + lb = 0 then 1
  else (2 * (totalMatches a.data b.data (la + lb + 1) 0 la 0 lb) : ℚ) / (la + lb)

/-- `fuzzy_match(a, b, case_insensitive)` from
`backend/modules/common_matrix.py` lines 14-18. -/
def fuzzy_match (a b : String) (case_insensitive : Bool := true) : ℚ :=
  if case_insensitive then ratioQ (pyLower a) (pyLower b)
  else ratioQ a b

/-! ### The fuzzy-mapping loop of `generate_ordered_soa_matrix`

`backend/modules/common_matrix.py` lines 72-91: for one form label, scan
the procedure list keeping the best score that is `>= threshold` and
strictly better than the running best; afterwards Python's
`if best_proc:` treats both `None` and the empty string as unmapped. -/

structure BestState where
  bestScore : ℚ
  bestIdx : Nat
  bestProc : Option String
  deriving Repr

def matchStep (threshold : ℚ) (form_label : String) (st : BestState)
    (pr : Nat × String) : BestState :=
  if threshold ≤ fuzzy_match pr.2 form_label ∧ st.bestScore < fuzzy_match pr.2 form_label
  then ⟨fuzzy_match pr.2 form_label, pr.1, some pr.2⟩ else st

def matchFold (threshold : ℚ) (form_label : String)
    (l : List (Nat × String)) (st : BestState) : BestState :=
  l.foldl (matchStep threshold form_label) st

/-- The per-label body of the loop: `None` means the label goes to
`unmapped_forms`; `some (idx, proc)` means
`form_order_map[label] = ⟨idx, proc⟩`. -/
def bestMatchForLabel (threshold : ℚ) (proc_order : List String)
    (form_label : String) : Option (Nat × String) :=
  let final := matchFold threshold form_label proc_order.enum ⟨0, 9999, none⟩
  match final.bestProc with
  | none => none
  | some p => if p = "" then none else some (final.bestIdx, p)

/-! ### Visit-name normalization (`backend/modules/event_grouping.py`)

`normalize_visit_name` (lines 46-71) matches the stripped token against the
configured pattern (default `^([VP]\d+)(?:\s([a-zA-Z]+))?$`), keeps
special-case tokens verbatim (uppercased), drops the suffix when its length
equals `keep_suffix_length` (default 1) and discards the token entirely for
any other suffix.  The default regex is translated as an explicit parser:
a literal `V` or `P`, one or more ASCII digits, then optionally a single
whitespace character followed by one or more ASCII letters reaching the end
of the token. -/

structure VisitNormConfig where
  keep_suffix_length : Nat
  special_cases : List String

/-- The `visit_normalization` defaults of `normalize_visit_name`. -/
def defaultVisitNorm : VisitNormConfig := ⟨1, []⟩

/-- Parser for the default pattern `^([VP]\d+)(?:\s([a-zA-Z]+))?$`:
returns the two regex groups (base, optional suffix). -/
def matchVisitPattern (s : String) : Option (String × Option String) :=
  match s.data with
  | [] => none
  | c :: rest =>
    if c = 'V' ∨ c = 'P' then
      let ds := rest.takeWhile isAsciiDigit
      let rest2 := rest.dropWhile isAsciiDigit
      if ds = [] then none
      else
        match rest2 with
        | [] => some (⟨c :: ds⟩, none)
        | w :: rest3 =>
          if isPySpace w then
            let ls := rest3.takeWhile isAsciiLetter
            let rest4 := rest3.dropWhile isAsciiLetter
            if ls ≠ [] ∧ rest4 = [] then some (⟨c :: ds⟩, some ⟨ls⟩) else none
          else none
    else none

def normalize_visit_name (v : String) (cfg : VisitNormConfig) : Option String :=
  match matchVisitPattern (pyStrip v) with
  | none =>
    if pyUpper (pyStrip v) ∈ cfg.special_cases then some (pyUpper (pyStrip v))
    else none
  | some (base, suffix) =>
    if pyUpper base ∈ cfg.special_cases then some (pyUpper base)
    else
      match suffix with
      | some suf => if suf.length = cfg.keep_suffix_length then some base else none
      | none => some base

/-! ### Decimal rendering of a counter (Python `str(counter)` / f-string)

Structural-fuel implementation so the kernel can evaluate it; `n` itself
bounds the number of digits. -/

def natDigitsAux : Nat → Nat → List Nat
  | 0, _ => []
  | fuel + 1, n => if n = 0 then [] else n % 10 :: natDigitsAux fuel (n / 10)

/-- Decimal digits of `n`, most significant first. -/
def natDigits (n : Nat) : List Nat :=
  if n = 0 then [0] else (natDigitsAux n n).reverse

def digitChar : Nat → Char
  | 0 => '0' | 1 => '1' | 2 => '2' | 3 => '3' | 4 => '4'
  | 5 => '5' | 6 => '6' | 7 => '7' | 8 => '8' | _ => '9'

/-- Python `str(n)` for a nonnegative integer. -/
def natRepr (n : Nat) : String := ⟨(natDigits n).map digitChar⟩

/-! ### The visit-identifier pattern `\bV\d+[A-Z]*(?:-\d+)?\b`

This is the default `visit_patterns` entry of the form extractor and the
pattern family used on schedule headers; compiled with `re.IGNORECASE`.
`visitTokenAt` tries the pattern at one position (the caller guarantees
the leading word boundary); the backtracking of the optional `(?:-\d+)?`
group collapses to: if the dash part matches but the trailing `\b` fails,
drop the optional part (the boundary before `-` always holds). -/

def visitTokenAt : List Char → Option (List Char × List Char)
  | [] => none
  | c :: rest =>
    if c = 'V' ∨ c = 'v' then
      let ds := rest.takeWhile isAsciiDigit
      let rest1 := rest.dropWhile isAsciiDigit
      if ds = [] then none
      else
        let ls := rest1.takeWhile isAsciiLetter
        let rest2 := rest1.dropWhile isAsciiLetter
        match rest2 with
        | '-' :: rest3 =>
          let es := rest3.takeWhile isAsciiDigit
          let rest4 := rest3.dropWhile isAsciiDigit
          if es ≠ [] ∧ (rest4 = [] ∨ ¬ isWordChar (rest4.headD ' ')) then
            some (c :: ds ++ ls ++ '-' :: es, rest4)
          else
            some (c :: ds ++ ls, rest2)
        | _ =>
          if rest2 = [] ∨ ¬ isWordChar (rest2.headD ' ') then
            some (c :: ds ++ ls, rest2)
          else none
    else none

/-- `re.findall` scan: left to right, non-overlapping, resuming after each
match.  The Boolean records whether the previous character was a word
character (for the leading `\b`).  Fuel: each step consumes at least one
character. -/
def findVisitTokensAux : Nat → List Char → Bool → List (List Char)
  | 0, _, _ => []
  | fuel + 1, chars, prevW =>
    match chars with
    | [] => []
    | c :: rest =>
      if prevW then findVisitTokensAux fuel rest (isWordChar c)
      else
        match visitTokenAt (c :: rest) with
        | some (tok, after) => tok :: findVisitTokensAux fuel after true
        | none => findVisitTokensAux fuel rest (isWordChar c)

def findVisitTokens (s : List Char) : List (List Char) :=
  findVisitTokensAux (s.length + 1) s false

/-- `max(matches, key=len)`: the first element of maximal length. -/
def maxByLen : List (List Char) → List Char
  | [] => []
  | x :: xs => xs.foldl (fun best y => if best.length < y.length then y else best) x

/-- `extract_complete_visit_identifier` from
`backend/PTD_Gen/modules/soa_parser.py` lines 67-87, instantiated with the
default visit pattern: strip, findall, take the longest match, and require
it to cover more than 30% of the space-paren-dash-free text (the float
comparison `> 0.3` is modelled exactly as `10 * len(match) > 3 * len(text)`). -/
def extract_complete_visit_identifier (text : String) : Option String :=
  let t := pyStrip text
  match findVisitTokens t.data with
  | [] => none
  | m :: ms =>
    let longest := maxByLen (m :: ms)
    let text_no_spaces := t.data.filter (fun c => ¬(c = ' ' ∨ c = '(' ∨ c = ')' ∨ c = '-'))
    if 3 * text_no_spaces.length < 10 * longest.length then some ⟨longest⟩ else none

/-! ### Visit-column construction (`soa_parser.parse_protocol_schedule` 274-291)

For every header cell carrying a visit identifier the loop disambiguates
duplicates by appending `_1`, `_2`, … until the name is unused, then
records the column and the visit.  The `while visit_id in seen_visits`
loop is `assignVisitIdAux`; its fuel `len(seen) + 1` is enough because
among the first `len(seen) + 1` candidate names at least one is unused
(they are pairwise distinct). -/

def visitCandidate (orig : String) : Nat → String
  | 0 => orig
  | k + 1 => orig ++ "_" ++ natRepr (k + 1)

def assignVisitIdAux (orig : String) (seen : List String) : Nat → Nat → String
  | 0, k => visitCandidate orig k
  | fuel + 1, k =>
    if visitCandidate orig k ∈ seen then assignVisitIdAux orig seen fuel (k + 1)
    else visitCandidate orig k

def assignVisitId (orig : String) (seen : List String) : String :=
  assignVisitIdAux orig seen (seen.length + 1) 0

structure VisitCols where
  column_to_visit : List (Nat × String)
  visit_order : List String
  seen_visits : List String
  deriving Repr, DecidableEq

def visitColStep (extract : String → Option String) (st : VisitCols)
    (cell : Nat × String) : VisitCols :=
  match extract cell.2 with
  | none => st
  | some visit_id =>
    let v := assignVisitId visit_id st.seen_visits
    ⟨st.column_to_visit ++ [(cell.1, v)], st.visit_order ++ [v], v :: st.seen_visits⟩

def buildVisitColumns (extract : String → Option String)
    (visit_row : List String) : VisitCols :=
  visit_row.enum.foldl (visitColStep extract) ⟨[], [], []⟩

/-! ### Freshness of the numeric-suffix disambiguation -/

def digitsVal : List Nat → Nat
  | [] => 0
  | d :: ds => d + 10 * digitsVal ds

/-- Well-formedness carried through the visit-column fold. -/
def ColsOK (st : VisitCols) : Prop :=
  st.visit_order.Nodup ∧ (∀ v ∈ st.visit_order, v ∈ st.seen_visits) ∧
  st.visit_order = st.column_to_visit.map Prod.snd ∧
  List.Pairwise (fun a b : Nat × String => a.1 < b.1) st.column_to_visit

/-! ### Document nodes

The JSON node shape consumed by the extractors: a `name` (structural role
tag), own `text`, and ordered `children`. -/

inductive JNode where
  | node (name : String) (text : String) (children : List JNode)
  deriving Repr

def JNode.name : JNode → String
  | .node n _ _ => n

def JNode.text : JNode → String
  | .node _ t _ => t

def JNode.children : JNode → List JNode
  | .node _ _ c => c

/-- `get_text` of the form extractors: `(node.get("text") or "").strip()`. -/
def get_text (n : JNode) : String := pyStrip n.text

/-! ### Form extraction (`PTD_Gen/modules/form_extractor.py` 286-423)

The traversal, label tracking, visit-string construction and
`seen_forms` deduplication are translated; the regular-expression
primitives and the classifier subroutines whose outputs do not enter the
dedup key (`determine_form_source`, trigger search with the `[ENR]`
override, the required-legend mapping) are abstracted as the function
fields of `FormCfg` — the claims proved below hold for every
instantiation, in particular for the concrete Python defaults. -/

structure FormCfg where
  is_valid_form_name : String → Bool
  is_valid_form_label : String → Bool
  ignore_match : String → Bool
  extract_visits : String → List String
  visit_num : String → Option Nat
  source_of : JNode → String
  triggers_of : JNode → String → List String
  required_of : String → Bool

mutual
/-- `deep_search_visits`: all visit-pattern matches on the node and its
descendants (Python collects them into a set; the list is deduplicated at
the sorting step below). -/
def deep_search_visits (f : String → List String) : JNode → List String
  | .node _ t cs => f (pyStrip t) ++ deep_search_visits_list f cs

def deep_search_visits_list (f : String → List String) : List JNode → List String
  | [] => []
  | c :: cs => deep_search_visits f c ++ deep_search_visits_list f cs
end
/-- Sort key of the visit join: `(int(re.search(r'\d+', x).group()) if
present else 9999, x)`. -/
def visitKeyLe (visit_num : String → Option Nat) (a b : String) : Bool :=
  let ka := (visit_num a).getD 9999
  let kb := (visit_num b).getD 9999
  ka < kb ∨ (ka = kb ∧ a ≤ b)

/-- `", ".join(sorted(form_visits, key=...))`: the Python set becomes a
deduplicated list; the sort key is injective (it contains the string
itself), so the sorted output is order-independent. -/
def visitsString (visit_num : String → Option Nat) (l : List String) : String :=
  String.intercalate ", " (l.dedup.mergeSort (visitKeyLe visit_num))

structure FormRow where
  formLabel : String
  formName : String
  source : String
  visits : String
  dynamicTrigger : String
  triggerDetails : String
  required : String
  deriving Repr, DecidableEq

/-- The `(label, name, visits-string)` dedup key of a form record. -/
def FormRow.key (r : FormRow) : String × String × String :=
  (r.formLabel, r.formName, r.visits)

structure FormExtractState where
  seen_forms : List (String × String × String)
  results : List FormRow

mutual
/-- `find_forms_in_node` (lines 339-419): update the running label on H2
headings, emit a record for a qualifying form name unless its
`(label, name, visits)` key was already seen (an ignore-pattern hit
returns without visiting the children), then recurse. -/
def find_forms_in_node (cfg : FormCfg) (h1_text : String)
    (section_visits : List String) :
    JNode → Option String → FormExtractState → FormExtractState
  | .node nm tx cs, current_label, st =>
    let node_text := pyStrip tx
    let label' :=
      if strStartsWith nm "H2" ∧ cfg.is_valid_form_label node_text ∧
          ¬ cfg.is_valid_form_name node_text
      then some node_text else current_label
    if cfg.is_valid_form_name node_text then
      if cfg.ignore_match node_text then st
      else
        let form_label := label'.getD h1_text
        let fv := deep_search_visits cfg.extract_visits (.node nm tx cs)
        let form_visits := if fv = [] then section_visits else fv
        let visits_str := visitsString cfg.visit_num form_visits
        let key := (form_label, node_text, visits_str)
        let st' :=
          if key ∈ st.seen_forms then st
          else
            let trigs := cfg.triggers_of (.node nm tx cs) node_text
            { seen_forms := key :: st.seen_forms,
              results := st.results ++ [{
                formLabel := form_label
                formName := node_text
                source := cfg.source_of (.node nm tx cs)
                visits := visits_str
                dynamicTrigger := if trigs = [] then "No" else "Yes"
                triggerDetails := trigs.headD ""
                required := if cfg.required_of node_text then "Yes" else "No" }] }
        find_forms_in_list cfg h1_text section_visits cs label' st'
    else
      find_forms_in_list cfg h1_text section_visits cs label' st

def find_forms_in_list (cfg : FormCfg) (h1_text : String)
    (section_visits : List String) :
    List JNode → Option String → FormExtractState → FormExtractState
  | [], _, st => st
  | c :: cs, lbl, st =>
    find_forms_in_list cfg h1_text section_visits cs lbl
      (find_forms_in_node cfg h1_text section_visits c lbl st)
end
mutual
/-- `gather_h1_sections`: pre-order collection of all nodes whose name
starts with `H1` (the recursion also descends into them). -/
def gather_h1_sections : JNode → List JNode
  | .node nm tx cs =>
    (if strStartsWith nm "H1" then [JNode.node nm tx cs] else []) ++ gather_h1_list cs

def gather_h1_list : List JNode → List JNode
  | [] => []
  | c :: cs => gather_h1_sections c ++ gather_h1_list cs
end
/-- `extract_forms_with_corrections`: one shared `seen_forms`/`results`
state threaded through every H1 section. -/
def extract_forms_with_corrections (cfg : FormCfg) (data : JNode) : List FormRow :=
  ((gather_h1_sections data).foldl
    (fun st h1 =>
      let h1t := if cfg.is_valid_form_label (get_text h1) then get_text h1
        else "Unknown Section"
      let sv := deep_search_visits cfg.extract_visits h1
      find_forms_in_node cfg h1t sv h1 none st)
    ⟨[], []⟩).results

/-! ### Item deduplication (`backend/Final_study_specific_form.py` 484-623)

The row-scanning phase of `extract_items_from_form` (table filtering, the
single-cell item-group rule, the 3-column and 2-column row shapes) builds
`items_data`; it is regex- and table-layout-driven and enters here as the
input list.  The returned value is the final deduplication pass of lines
615-623, keyed on `(Item Name, Item Group)`. -/

structure ItemRec where
  item_name : String
  item_group : String
  option_node : Option JNode
  deriving Repr

def extract_items_from_form (items_data : List ItemRec) : List ItemRec :=
  (items_data.foldl
    (fun (acc : List (String × String) × List ItemRec) item =>
      if (item.item_name, item.item_group) ∈ acc.1 then acc
      else ((item.item_name, item.item_group) :: acc.1, acc.2 ++ [item]))
    ([], [])).2

/-! ### The items-pipeline form pass (`Final_study_specific_form.py` 160-205)

`extract_forms_cleaned` performs the same traversal but keyed on the
`(Form Label, Form Name)` pair only — no visits component — and keeps the
form node and its H1 section in the record. -/

structure CleanedRow where
  formLabel : String
  formName : String
  h1_text : String
  form_node : JNode
  parent_h1 : JNode
  deriving Repr

def CleanedRow.key (r : CleanedRow) : String × String := (r.formLabel, r.formName)

structure CleanedState where
  seen_forms : List (String × String)
  results : List CleanedRow

mutual
def find_forms_cleaned (isName isLabel : String → Bool) (h1_text : String)
    (h1_node : JNode) :
    JNode → Option String → CleanedState → CleanedState
  | .node nm tx cs, current_label, st =>
    let node_text := pyStrip tx
    let label' :=
      if strStartsWith nm "H2" ∧ isLabel node_text ∧ ¬ isName node_text
      then some node_text else current_label
    let st' :=
      if isName node_text then
        let form_label := label'.getD h1_text
        let key := (form_label, node_text)
        if key ∈ st.seen_forms then st
        else
          { seen_forms := key :: st.seen_forms,
            results := st.results ++ [{
              formLabel := form_label
              formName := node_text
              h1_text := h1_text
              form_node := JNode.node nm tx cs
              parent_h1 := h1_node }] }
      else st
    find_forms_cleaned_list isName isLabel h1_text h1_node cs label' st'

def find_forms_cleaned_list (isName isLabel : String → Bool) (h1_text : String)
    (h1_node : JNode) :
    List JNode → Option String → CleanedState → CleanedState
  | [], _, st => st
  | c :: cs, lbl, st =>
    find_forms_cleaned_list isName isLabel h1_text h1_node cs lbl
      (find_forms_cleaned isName isLabel h1_text h1_node c lbl st)
end
def extract_forms_cleaned (isName isLabel : String → Bool) (data : JNode) :
    List CleanedRow :=
  ((gather_h1_sections data).foldl
    (fun st h1 =>
      let h1t := if isLabel (get_text h1) then get_text h1 else "Unknown Section"
      find_forms_cleaned isName isLabel h1t h1 h1 none st)
    ⟨[], []⟩).results

/-! ### Invariants of the best-match loop -/

def BestInv (t : ℚ) (label : String) (st : BestState) : Prop :=
  (st.bestProc = none → st.bestScore = 0) ∧
  (∀ p, st.bestProc = some p → fuzzy_match p label = st.bestScore ∧ t ≤ st.bestScore)

/-! ### Repeating-group analysis and the Study Specific Forms rows
(`backend/Final_study_specific_form.py` 874-935, 984-1086, 1533-1594)

`analyze_item_groups_per_form` counts the stripped, non-empty, non-`NaN`
group values; `get_item_group_repeating_flag` and `get_repeat_maximum`
consult those counts with the raw per-item value.  The `Counter` and the
`repeating_groups` set are represented by `List.count` over the collected
group list (`g` is a key of the counter iff its count is ≥ 1, and a member
of `repeating_groups` iff its count is > 1).  The per-item row computation
shared by `process_clinical_forms` and `prepare_study_specific_forms_rows`
is `rows_for_form`; the codelist extraction on a present option node and
the non-`None` branch of `determine_data_type` are regex/CONFIG-driven and
abstracted as parameters. -/

/-- The list comprehension of `analyze_item_groups_per_form` (lines
888-892): stripped group values, excluding empty and `'NaN'`. -/
def item_groups_of (items : List ItemRec) : List String :=
  items.filterMap (fun it =>
    if pyStrip it.item_group ≠ "" ∧ pyStrip it.item_group ≠ "NaN"
    then some (pyStrip it.item_group) else none)

def get_item_group_repeating_flag (groups : List String) (item_group : String) : String :=
  if item_group = "" ∨ item_group = "NaN" ∨ pyStrip item_group = "" then "N"
  else if 1 < groups.count item_group then "Y" else "N"

def get_repeat_maximum (item_group : String) (flag : String) (groups : List String) : Nat :=
  if flag = "Y" ∧ 1 ≤ groups.count item_group then groups.count item_group else 50

/-- `assign_item_order`: `enumerate(items, start=1)`. -/
def assign_item_order (items : List ItemRec) : List (ItemRec × Nat) :=
  items.enum.map (fun p => (p.2, p.1 + 1))

def check_required_field (item_name : String) : String :=
  let item_text := if item_name = "" then "" else pyStrip item_name
  if strStartsWith item_text "*" then "Y" else "N"

/-- `determine_data_type` (lines 626-678): a missing option node is
`Text`; the branch on a present node (date/time pattern, nested option
structure, format token) is abstracted as `dtOf`. -/
def determine_data_type (dtOf : JNode → String → String) :
    Option JNode → String → String
  | none, _ => "Text"
  | some nd, codelist => dtOf nd (pyStrip codelist)

/-- `get_all_lbody_values` (lines 680-...): empty for a missing node, the
traversal of a present node abstracted as `lbodyOf`. -/
def get_all_lbody_values (lbodyOf : JNode → String) : Option JNode → String
  | none => ""
  | some nd => lbodyOf nd

structure SSFRow where
  formLabel : String
  formName : String
  itemGroup : String
  itemGroupRepeating : String
  repeatMaximum : Nat
  itemOrder : Nat
  itemLabel : String
  dataType : String
  required : String
  deriving Repr, DecidableEq, Inhabited

/-- One output row of the per-item loop: `item_group_value` is the raw
group with `''` replaced by the `NaN` sentinel, the repeating flag and the
repeat maximum are computed against the analyzed `groups` of the whole
form. -/
def ssf_row_of (formLabel formName : String) (dtOf : JNode → String → String)
    (lbodyOf : JNode → String) (groups : List String) (p : ItemRec × Nat) : SSFRow :=
  let item := p.1
  let item_group_value := if item.item_group = "" then "NaN" else item.item_group
  let flag := get_item_group_repeating_flag groups item_group_value
  let rmax := get_repeat_maximum item_group_value flag groups
  let codelist := get_all_lbody_values lbodyOf item.option_node
  { formLabel := formLabel
    formName := formName
    itemGroup := item_group_value
    itemGroupRepeating := flag
    repeatMaximum := rmax
    itemOrder := p.2
    itemLabel := item.item_name
    dataType := determine_data_type dtOf item.option_node codelist
    required := check_required_field item.item_name }

/-- The per-form body of `prepare_study_specific_forms_rows` (1552-1594) /
`process_clinical_forms` (984-1086): insert the placeholder item when the
form has no items, assign 1-based order, analyze the groups, then build
one row per item (restricted to the output columns the claims speak
about). -/
def rows_for_form (formLabel formName : String) (dtOf : JNode → String → String)
    (lbodyOf : JNode → String) (items0 : List ItemRec) : List SSFRow :=
  let items := match items0 with
    | [] => [⟨"", "", none⟩]
    | _ => items0
  (assign_item_order items).map
    (ssf_row_of formLabel formName dtOf lbodyOf (item_groups_of items))

/-! ### Schedule parsing failure paths
(`backend/PTD_Gen/modules/soa_parser.py` 248-338, 363-392)

`parse_protocol_schedule` returns the `(None, None, None)` triple — here
`none` — when no schedule tables are found, when no visit header row is
detected, or when the header row yields no visit columns; `parse_soa`
checks `if schedule:` and raises (`Except.error`) when the triple is
`None` or the schedule dict is empty.  The table search/merge, the row
flattener, the header-row scorer, the marker test and the procedure
filter are pattern-list-driven and enter as the function fields of
`SoaCfg`; the column→visit loop is the `buildVisitColumns` translation
above. -/

structure SoaCfg where
  find_all_schedule_tables : JNode → List JNode
  rows_of : JNode → List (List String)
  detect_visit_header_row : List (List String) → Option (List String)
  extract_id : String → Option String
  cell_has_marker : String → Bool
  procedure_filters : List String
  find_schedule_end : List (List String) → List (Nat × String) → Nat → Nat

/-- Ordered-dict update for `schedule.setdefault(visit, []).append(proc)`:
an existing key keeps its insertion position. -/
def updateAssoc (s : List (String × List String)) (k : String) (v : String) :
    List (String × List String) :=
  match s.lookup k with
  | some _ => s.map (fun e => if e.1 = k then (e.1, e.2 ++ [v]) else e)
  | none => s ++ [(k, [v])]

/-- The marker test over the visit columns of one row
(`any(cell_has_marker(...) for col in column_to_visit)`). -/
def row_has_markers (cfg : SoaCfg) (cols : List (Nat × String)) (row : List String) : Bool :=
  cols.any (fun c => if c.1 < row.length then cfg.cell_has_marker (row.getD c.1 "") else false)

/-- The procedure scan of lines 306-336: walk the rows after the header up
to the schedule end, skip filtered or visit-like first cells, and record
each marker-bearing row under its first cell, building the visit→procedures
map and the first-seen procedure order. -/
def scan_procedures (cfg : SoaCfg) (cols : List (Nat × String))
    (rows : List (List String)) :
    List (String × List String) × List String :=
  rows.foldl
    (fun acc row =>
      match row with
      | [] => acc
      | _ =>
        let first_cell := pyStrip (row.headD "")
        if cfg.procedure_filters.any
            (fun t => pyLower first_cell = pyLower t ∨ (cfg.extract_id first_cell).isSome)
          then acc
        else if row_has_markers cfg cols row then
          let procs := if first_cell ∈ acc.2 then acc.2 else acc.2 ++ [first_cell]
          let sched := cols.foldl
            (fun (s : List (String × List String)) c =>
              if c.1 < row.length ∧ cfg.cell_has_marker (row.getD c.1 "") then
                updateAssoc s c.2 first_cell
              else s)
            acc.1
          (sched, procs)
        else acc)
    ([], [])

def parse_protocol_schedule (cfg : SoaCfg) (protocol_data : JNode) :
    Option (List (String × List String) × List String × List String) :=
  match cfg.find_all_schedule_tables protocol_data with
  | [] => none
  | t :: ts =>
    let all_rows := ((t :: ts).map cfg.rows_of).flatten
    match cfg.detect_visit_header_row all_rows with
    | none => none
    | some visit_row =>
      let cols := buildVisitColumns cfg.extract_id visit_row
      if cols.visit_order = [] then none
      else
        let header_row_index := (all_rows.findIdx (fun r => r = visit_row))
        let end_index := cfg.find_schedule_end all_rows cols.column_to_visit
          (header_row_index + 1)
        let body := (all_rows.drop (header_row_index + 1)).take
          (end_index - (header_row_index + 1))
        let scanned := scan_procedures cfg cols.column_to_visit body
        some (scanned.1, cols.visit_order, scanned.2)

/-- `parse_soa`: the success value stands for the written CSV path; the
failure of `if schedule:` raises `ValueError`. -/
def parse_soa (cfg : SoaCfg) (protocol_data : JNode) : Except String String :=
  match parse_protocol_schedule cfg protocol_data with
  | none => Except.error "Failed to parse schedule from protocol JSON"
  | some (schedule, _, _) =>
    if schedule = [] then Except.error "Failed to parse schedule from protocol JSON"
    else Except.ok "output.csv"

/-- `extract_forms` (`form_extractor.py` 426-465): extracts, writes every
row to the CSV and returns the output path unconditionally — the value
carries the written table.  There is no zero-forms check: an empty
extraction yields a success with an empty table. -/
def extract_forms (cfg : FormCfg) (data : JNode) : Except String (List FormRow) :=
  Except.ok (extract_forms_with_corrections cfg data)

/-- A concrete `FormCfg` instantiation for closed statements about inputs
with no H1 sections (no classifier is ever consulted on such inputs). -/
def trivialFormCfg : FormCfg where
  is_valid_form_name := fun _ => false
  is_valid_form_label := fun _ => false
  ignore_match := fun _ => false
  extract_visits := fun _ => []
  visit_num := fun _ => none
  source_of := fun _ => ""
  triggers_of := fun _ _ => []
  required_of := fun _ => false

/-- A concrete `SoaCfg` on which no schedule table is found. -/
def noTablesSoaCfg : SoaCfg where
  find_all_schedule_tables := fun _ => []
  rows_of := fun _ => []
  detect_visit_header_row := fun _ => none
  extract_id := fun _ => none
  cell_has_marker := fun _ => false
  procedure_filters := []
  find_schedule_end := fun _ _ _ => 0

/-- A concrete `SoaCfg` that finds a table but no visit header row. -/
def noHeaderSoaCfg : SoaCfg where
  find_all_schedule_tables := fun d => [d]
  rows_of := fun _ => []
  detect_visit_header_row := fun _ => none
  extract_id := fun _ => none
  cell_has_marker := fun _ => false
  procedure_filters := []
  find_schedule_end := fun _ _ _ => 0

/-! ### Hierarchy Builder (`json_struct_protocol.py`)

`parse_hierarchy` mutates Python dicts shared between `path_to_node`, the
`header_context` and the growing tree; the embedding makes the references
explicit: nodes live in an append-only heap (`Array HNode`) addressed by
index, the two dicts are insertion-ordered association lists of indices,
and child insertion rewrites the parent's entry.  The resulting tree is
read back through `resolveNode`. -/

def listHasSub (s pat : List Char) : Bool :=
  match s with
  | [] => listStarts [] pat
  | _ :: rest => listStarts s pat || listHasSub rest pat

def strHasSub (s pat : String) : Bool := listHasSub s.data pat.data

def strEndsWith (s pat : String) : Bool := listStarts s.data.reverse pat.data.reverse

/-- One input element: a slash-delimited structural `path` and own
`text` (the Python code accepts either `path`/`Path` and `text`/`Text`
key casing and coalesces missing keys to `""`; the record carries the
coalesced values). -/
structure PathElem where
  path : String
  text : String
  deriving Repr, DecidableEq

def normalize_path (path : String) : String :=
  if path = "" then ""
  else
    let stripped := path.data.dropWhile (fun c => c = '/')
    if stripped = [] then "" else ⟨'/' :: '/' :: stripped⟩

def digitsRevVal : List Char → Nat
  | [] => 0
  | c :: cs => (c.toNat - 48) + 10 * digitsRevVal cs

/-- `get_header_level`: `Title` is level 0, otherwise the regex
`/H(\d+)(\[\d+\])?$` searched as a suffix of the normalized path
(digits read from the reversed character list). -/
def get_header_level (path : String) : Option Nat :=
  let normalized := normalize_path path
  if strEndsWith normalized "/Title" then some 0
  else
    let rev := normalized.data.reverse
    let rev2 :=
      match rev with
      | ']' :: rest =>
        let ds := rest.takeWhile isAsciiDigit
        if ds ≠ [] then
          match rest.dropWhile isAsciiDigit with
          | '[' :: r3 => r3
          | _ => rev
        else rev
      | _ => rev
    let ds := rev2.takeWhile isAsciiDigit
    match ds, rev2.dropWhile isAsciiDigit with
    | _ :: _, 'H' :: '/' :: _ => some (digitsRevVal ds)
    | _, _ => none

def is_table_or_complex_structure (path : String) : Bool :=
  ["/TR", "/TD", "/TH", "/LBody", "/LI", "/Lbl", "/Caption", "/Footnote",
    "/Aside"].any (fun pat => strHasSub path pat)

def is_inline_content (path : String) : Bool :=
  ["/Span", "/Sub", "/StyleSpan", "/ExtraCharSpan"].any
    (fun pat => strEndsWith path pat)

def is_top_level_table (path : String) : Bool :=
  let n := normalize_path path
  decide (n = "//Document/Table") ||
    (strStartsWith n "//Document/Table[" &&
      (match (n.data.drop 17).reverse with
       | ']' :: ds => !ds.isEmpty && ds.all isAsciiDigit
       | _ => false))

def get_parent_path (path : String) : String :=
  let normalized := normalize_path path
  if normalized = "" ∨ normalized = "//" then ""
  else
    let parts := (normalized.drop 2).splitOn "/"
    if parts.length ≤ 1 then ""
    else "//" ++ String.intercalate "/" parts.dropLast

def lastComponent (s : String) : String := (s.splitOn "/").getLastD ""

structure HNode where
  name : String
  text : String
  path : String
  childIds : List Nat
  deriving Repr, DecidableEq

structure HState where
  heap : Array HNode
  header_context : List (Nat × Nat)
  path_to_node : List (String × Nat)
  deriving Repr

/-- Dict update `header_context[lvl] = id` (existing key keeps its
insertion position). -/
def hcSet (hc : List (Nat × Nat)) (lvl id : Nat) : List (Nat × Nat) :=
  if hc.any (fun e => e.1 = lvl) then
    hc.map (fun e => if e.1 = lvl then (lvl, id) else e)
  else hc ++ [(lvl, id)]

/-- `for lvl in list(header_context): if lvl > header_level: del ...`. -/
def hcDelAbove (hc : List (Nat × Nat)) (lvl : Nat) : List (Nat × Nat) :=
  hc.filter (fun e => decide (¬ lvl < e.1))

def hcMaxKey (hc : List (Nat × Nat)) : Nat := hc.foldl (fun m e => max m e.1) 0

def hcGet (hc : List (Nat × Nat)) (lvl : Nat) : Nat := (hc.lookup lvl).getD 0

/-- `max([lvl for lvl in header_context if lvl < header_level], default=0)`. -/
def hcMaxBelow (hc : List (Nat × Nat)) (lvl : Nat) : Nat :=
  (hc.filter (fun e => e.1 < lvl)).foldl (fun m e => max m e.1) 0

def addChild (heap : Array HNode) (parent child : Nat) : Array HNode :=
  match heap[parent]? with
  | some nd => heap.setD parent { nd with childIds := nd.childIds ++ [child] }
  | none => heap

/-- `ensure_path_exists`, with placeholder creation for missing
intermediate segments.  The fuel bounds the parent-path recursion (each
step strictly shortens the path, so `length + 1` suffices). -/
def ensure_path_exists (st : HState) : Nat → String → HState × Nat
  | 0, _ => (st, 0)
  | fuel + 1, target_path =>
    let normalized := normalize_path target_path
    if normalized = "//Document" ∨ normalized = "" then (st, 0)
    else
      match st.path_to_node.lookup normalized with
      | some id => (st, id)
      | none =>
        let parent_path := get_parent_path normalized
        let pr :=
          if parent_path = "//Document" ∨ parent_path = "" then
            (st, hcGet st.header_context (hcMaxKey st.header_context))
          else ensure_path_exists st fuel parent_path
        let st1 := pr.1
        let parent_id := pr.2
        let node_name := lastComponent normalized
        let new_id := st1.heap.size
        let heap1 := (st1.heap.push ⟨node_name, "", normalized, []⟩)
        ({ heap := addChild heap1 parent_id new_id,
           header_context := st1.header_context,
           path_to_node := (normalized, new_id) :: st1.path_to_node }, new_id)

/-- The body of the `for elem in elements` loop of `parse_hierarchy`. -/
def processElem (st : HState) (elem : PathElem) : HState :=
  let path := normalize_path elem.path
  let text := elem.text
  let name := if path = "" then "" else lastComponent path
  if name = "Document" ∧ path = "//Document" then st
  else
    let new_id := st.heap.size
    let st0 : HState :=
      { heap := st.heap.push ⟨name, text, path, []⟩,
        header_context := st.header_context,
        path_to_node := (path, new_id) :: st.path_to_node }
    match get_header_level path with
    | some header_level =>
      let parent_level := hcMaxBelow st0.header_context header_level
      let parent := hcGet st0.header_context parent_level
      { heap := addChild st0.heap parent new_id,
        header_context := hcDelAbove (hcSet st0.header_context header_level new_id)
          header_level,
        path_to_node := st0.path_to_node }
    | none =>
      if is_top_level_table path then
        let parent := hcGet st0.header_context (hcMaxKey st0.header_context)
        { st0 with heap := addChild st0.heap parent new_id }
      else if is_inline_content path then
        let pr := ensure_path_exists st0 (path.length + 1) (get_parent_path path)
        { pr.1 with heap := addChild pr.1.heap pr.2 new_id }
      else if is_table_or_complex_structure path then
        let pr := ensure_path_exists st0 (path.length + 1) (get_parent_path path)
        { pr.1 with heap := addChild pr.1.heap pr.2 new_id }
      else
        let parent := hcGet st0.header_context (hcMaxKey st0.header_context)
        { st0 with heap := addChild st0.heap parent new_id }

def parse_hierarchy (elements : List PathElem) : HState :=
  elements.foldl processElem
    { heap := #[⟨"Document Root", "", "", []⟩],
      header_context := [(0, 0)],
      path_to_node := [("", 0), ("//Document", 0)] }

inductive HTree where
  | node (name : String) (text : String) (children : List HTree)
  deriving Repr

/-- Read the tree out of the heap.  Child indices always exceed their
parent's index (children are appended after their parent exists), so the
heap size bounds the depth and the fuel fallback is unreachable. -/
def resolveNode (heap : Array HNode) : Nat → Nat → HTree
  | 0, _ => .node "" "" []
  | fuel + 1, id =>
    match heap[id]? with
    | none => .node "" "" []
    | some nd => .node nd.name nd.text (nd.childIds.map (fun c => resolveNode heap fuel c))

/-- `run_hierarchy` up to the JSON dump: the tree rooted at node 0. -/
def run_hierarchy_tree (elements : List PathElem) : HTree :=
  let st := parse_hierarchy elements
  resolveNode st.heap st.heap.size 0

mutual
def countNodes : HTree → Nat
  | .node _ _ cs => 1 + countNodesList cs

def countNodesList : List HTree → Nat
  | [] => 0
  | t :: ts => countNodes t + countNodesList ts
end
/-- The `(name, text, child count)` observed at a child-index position of
the tree. -/
def nodeAt : List Nat → HTree → Option (String × String × Nat)
  | [], .node nm tx cs => some (nm, tx, cs.length)
  | i :: rest, .node _ _ cs =>
    match cs[i]? with
    | some c => nodeAt rest c
    | none => none

def FormStInv (st : FormExtractState) : Prop :=
  (∀ r ∈ st.results, r.key ∈ st.seen_forms) ∧
  st.results.Pairwise (fun a b => FormRow.key a ≠ FormRow.key b)

def CleanedInv (st : CleanedState) : Prop :=
  (∀ r ∈ st.results, r.key ∈ st.seen_forms) ∧
  st.results.Pairwise (fun a b => CleanedRow.key a ≠ CleanedRow.key b)

lemma digitsVal_natDigitsAux : ∀ fuel n, n ≤ fuel → digitsVal (natDigitsAux fuel n) = n := by
  intro fuel
  induction fuel with
  | zero =>
    intro n hn
    interval_cases n
    simp [natDigitsAux, digitsVal]
  | succ fuel ih =>
    intro n hn
    rw [natDigitsAux]
    by_cases h0 : n = 0
    · simp [h0, digitsVal]
    · rw [if_neg h0, digitsVal, ih (n / 10) ?_]
      · exact Nat.mod_add_div n 10
      · have : n / 10 < n := Nat.div_lt_self (Nat.pos_of_ne_zero h0) (by norm_num)
        omega

lemma natDigitsAux_lt_ten : ∀ fuel n d, d ∈ natDigitsAux fuel n → d < 10 := by
  intro fuel
  induction fuel with
  | zero => intro n d hd; simp [natDigitsAux] at hd
  | succ fuel ih =>
    intro n d hd
    rw [natDigitsAux] at hd
    by_cases h0 : n = 0
    · simp [h0] at hd
    · rw [if_neg h0] at hd
      rcases List.mem_cons.mp hd with h | h
      · subst h; exact Nat.mod_lt _ (by norm_num)
      · exact ih _ _ h

lemma natDigits_lt_ten (n : Nat) : ∀ d ∈ natDigits n, d < 10 := by
  intro d hd
  unfold natDigits at hd
  by_cases h0 : n = 0
  · simp [h0] at hd; omega
  · rw [if_neg h0, List.mem_reverse] at hd
    exact natDigitsAux_lt_ten n n d hd

lemma natDigits_injective (a b : Nat) (h : natDigits a = natDigits b) : a = b := by
  unfold natDigits at h
  by_cases ha : a = 0 <;> by_cases hb : b = 0
  · omega
  · exfalso
    rw [if_pos ha, if_neg hb] at h
    have haux : natDigitsAux b b = [0] := by
      have := congrArg List.reverse h
      simpa using this.symm
    have hval := digitsVal_natDigitsAux b b le_rfl
    rw [haux] at hval
    simp [digitsVal] at hval
    omega
  · exfalso
    rw [if_neg ha, if_pos hb] at h
    have haux : natDigitsAux a a = [0] := by
      have := congrArg List.reverse h
      simpa using this
    have hval := digitsVal_natDigitsAux a a le_rfl
    rw [haux] at hval
    simp [digitsVal] at hval
    omega
  · rw [if_neg ha, if_neg hb] at h
    have h2 : natDigitsAux a a = natDigitsAux b b := by
      have := congrArg List.reverse h
      simpa using this
    have hv := digitsVal_natDigitsAux a a le_rfl
    rw [h2, digitsVal_natDigitsAux b b le_rfl] at hv
    exact hv.symm

lemma digitChar_inj (a b : Nat) (ha : a < 10) (hb : b < 10)
    (h : digitChar a = digitChar b) : a = b := by
  interval_cases a <;> interval_cases b <;> revert h <;> decide

lemma map_digitChar_inj : ∀ l1 l2 : List Nat, (∀ d ∈ l1, d < 10) → (∀ d ∈ l2, d < 10) →
    l1.map digitChar = l2.map digitChar → l1 = l2 := by
  intro l1
  induction l1 with
  | nil =>
    intro l2 _ _ h
    exact (List.map_eq_nil_iff.mp h.symm).symm
  | cons a l1 ih =>
    intro l2 h1 h2 h
    cases l2 with
    | nil => simp at h
    | cons b l2 =>
      simp only [List.map_cons, List.cons.injEq] at h
      have hab := digitChar_inj a b (h1 a (l1.mem_cons_self a)) (h2 b (l2.mem_cons_self b)) h.1
      rw [hab, ih l2 (fun d hd => h1 d (List.mem_cons_of_mem _ hd))
        (fun d hd => h2 d (List.mem_cons_of_mem _ hd)) h.2]

lemma natRepr_data_inj (a b : Nat) (h : (natRepr a).data = (natRepr b).data) : a = b :=
  natDigits_injective a b
    (map_digitChar_inj _ _ (natDigits_lt_ten a) (natDigits_lt_ten b) h)

lemma natRepr_data_ne_nil (n : Nat) : (natRepr n).data ≠ [] := by
  unfold natRepr natDigits
  by_cases h : n = 0
  · simp [h]
  · rw [if_neg h]
    obtain ⟨m, rfl⟩ := Nat.exists_eq_succ_of_ne_zero h
    rw [natDigitsAux, if_neg h]
    simp

lemma visitCandidate_injective (orig : String) :
    Function.Injective (visitCandidate orig) := by
  have hlen : ∀ k, (visitCandidate orig (k + 1)).data =
      orig.data ++ ('_' :: (natRepr (k + 1)).data) := by
    intro k
    show (orig ++ "_" ++ natRepr (k + 1)).data = _
    rw [String.data_append, String.data_append, List.append_assoc]
    rfl
  intro a b h
  match a, b with
  | 0, 0 => rfl
  | 0, k + 1 =>
    exfalso
    have hd : orig.data = orig.data ++ ('_' :: (natRepr (k + 1)).data) := by
      rw [← hlen k]; exact congrArg String.data h
    have := congrArg List.length hd
    simp at this
  | j + 1, 0 =>
    exfalso
    have hd : orig.data = orig.data ++ ('_' :: (natRepr (j + 1)).data) := by
      rw [← hlen j]; exact congrArg String.data h.symm
    have := congrArg List.length hd
    simp at this
  | j + 1, k + 1 =>
    have hd := congrArg String.data h
    rw [hlen j, hlen k] at hd
    have h2 := List.append_cancel_left hd
    have h3 : (natRepr (j + 1)).data = (natRepr (k + 1)).data := by
      injection h2
    rw [natRepr_data_inj _ _ h3]

lemma exists_fresh_candidate (orig : String) (seen : List String) :
    ∃ k, k ≤ seen.length ∧ visitCandidate orig k ∉ seen := by
  by_contra hc
  push_neg at hc
  have hsub : (Finset.range (seen.length + 1)).image (visitCandidate orig) ⊆ seen.toFinset := by
    intro x hx
    rw [Finset.mem_image] at hx
    obtain ⟨k, hk, rfl⟩ := hx
    rw [Finset.mem_range] at hk
    exact List.mem_toFinset.mpr (hc k (by omega))
  have h1 : seen.length + 1 ≤ seen.toFinset.card := by
    have := Finset.card_le_card hsub
    rwa [Finset.card_image_of_injective _ (visitCandidate_injective orig),
      Finset.card_range] at this
  have h2 : seen.toFinset.card ≤ seen.length := seen.toFinset_card_le
  omega

lemma assignVisitIdAux_not_mem (orig : String) (seen : List String) :
    ∀ fuel k, (∃ j, k ≤ j ∧ j < k + fuel ∧ visitCandidate orig j ∉ seen) →
      assignVisitIdAux orig seen fuel k ∉ seen := by
  intro fuel
  induction fuel with
  | zero =>
    rintro k ⟨j, h1, h2, -⟩
    omega
  | succ fuel ih =>
    rintro k ⟨j, h1, h2, h3⟩
    rw [assignVisitIdAux]
    by_cases hm : visitCandidate orig k ∈ seen
    · rw [if_pos hm]
      apply ih
      refine ⟨j, ?_, by omega, h3⟩
      rcases Nat.eq_or_lt_of_le h1 with h | h
      · exact absurd (h ▸ hm) h3
      · omega
    · rw [if_neg hm]
      exact hm

/-- The disambiguated visit name produced by the `while` loop is never one
of the already-seen names. -/
lemma assignVisitId_not_mem (orig : String) (seen : List String) :
    assignVisitId orig seen ∉ seen := by
  obtain ⟨k, hk, h⟩ := exists_fresh_candidate orig seen
  exact assignVisitIdAux_not_mem orig seen (seen.length + 1) 0 ⟨k, Nat.zero_le _, by omega, h⟩

lemma colsOK_step (e : String → Option String) (st : VisitCols) (cell : Nat × String)
    (hok : ColsOK st) (hbound : ∀ q ∈ st.column_to_visit, q.1 < cell.1) :
    ColsOK (visitColStep e st cell) := by
  obtain ⟨hnd, hmem, hsnd, hpw⟩ := hok
  unfold visitColStep
  cases e cell.2 with
  | none => exact ⟨hnd, hmem, hsnd, hpw⟩
  | some vid =>
    have hnew : assignVisitId vid st.seen_visits ∉ st.seen_visits :=
      assignVisitId_not_mem vid st.seen_visits
    refine ⟨?_, ?_, ?_, ?_⟩
    · rw [List.nodup_append]
      exact ⟨hnd, List.nodup_singleton _,
        fun v hv hv2 => hnew ((List.mem_singleton.mp hv2) ▸ hmem v hv)⟩
    · intro v hv
      rcases List.mem_append.mp hv with h | h
      · exact List.mem_cons_of_mem _ (hmem v h)
      · rw [List.mem_singleton.mp h]
        exact List.mem_cons_self _ _
    · simp only [List.map_append, List.map_cons, List.map_nil]
      rw [← hsnd]
    · rw [List.pairwise_append]
      refine ⟨hpw, List.pairwise_singleton _ _, ?_⟩
      intro a ha b hb
      rw [List.mem_singleton.mp hb]
      exact hbound a ha

lemma colsOK_fold (e : String → Option String) :
    ∀ (l : List (Nat × String)) (st : VisitCols), ColsOK st →
      (∀ pr ∈ l, ∀ q ∈ st.column_to_visit, q.1 < pr.1) →
      List.Pairwise (fun a b : Nat × String => a.1 < b.1) l →
      ColsOK (l.foldl (visitColStep e) st) := by
  intro l
  induction l with
  | nil => intro st h _ _; exact h
  | cons pr l ih =>
    intro st hok hbound hpl
    refine ih _ (colsOK_step e st pr hok (hbound pr (l.mem_cons_self pr))) ?_
      (List.Pairwise.of_cons hpl)
    intro r hr q hq
    have hcol : (visitColStep e st pr).column_to_visit = st.column_to_visit ∨
        (visitColStep e st pr).column_to_visit = st.column_to_visit ++ [(pr.1,
          assignVisitId ((e pr.2).getD "") st.seen_visits)] := by
      unfold visitColStep
      cases e pr.2 with
      | none => exact Or.inl rfl
      | some vid => exact Or.inr rfl
    rcases hcol with h | h
    · rw [h] at hq
      exact hbound r (List.mem_cons_of_mem _ hr) q hq
    · rw [h] at hq
      rcases List.mem_append.mp hq with h2 | h2
      · exact hbound r (List.mem_cons_of_mem _ hr) q h2
      · rw [List.mem_singleton.mp h2]
        exact (List.pairwise_cons.mp hpl).1 r hr

/-! ### Facts about `pyLower` and degenerate ratios -/

lemma toNat_ofNat_small (n : Nat) (h : n < 55296) : (Char.ofNat n).toNat = n := by
  have hv : Nat.isValidChar n := Or.inl h
  simp only [Char.ofNat, hv, dif_pos, Char.ofNatAux, Char.toNat]
  simp [UInt32.toNat]

lemma lowerChar_idem (c : Char) : lowerChar (lowerChar c) = lowerChar c := by
  unfold lowerChar
  by_cases h : 65 ≤ c.toNat ∧ c.toNat ≤ 90
  · simp only [if_pos h]
    have hd : (Char.ofNat (c.toNat + 32)).toNat = c.toNat + 32 :=
      toNat_ofNat_small _ (by omega)
    rw [if_neg (by omega)]
  · simp only [if_neg h]

lemma pyLower_idem (s : String) : pyLower (pyLower s) = pyLower s := by
  simp [pyLower, Function.comp_def, lowerChar_idem]

lemma flmLoop_nil_left (b : List Char) (bhi : Nat) :
    flmLoop [] b 0 0 0 bhi = ⟨0, 0, 0⟩ := by
  simp [flmLoop]

lemma findLongestMatch_nil_left (b : List Char) (bhi : Nat) :
    findLongestMatch [] b 0 0 0 bhi = ⟨0, 0, 0⟩ := by
  unfold findLongestMatch
  rw [flmLoop_nil_left]
  simp only [extendLeft]
  cases h : (0 + bhi : Nat) with
  | zero => simp [extendRight]
  | succ k => simp [extendRight]

lemma totalMatches_nil_left (b : List Char) (fuel bhi : Nat) :
    totalMatches [] b fuel 0 0 0 bhi = 0 := by
  cases fuel with
  | zero => simp [totalMatches]
  | succ k => simp [totalMatches, findLongestMatch_nil_left]

lemma length_pyLower (s : String) : (pyLower s).data.length = s.data.length := by
  simp [pyLower]

/-- The ratio of the empty string against any string: `1` when both are
empty, `0` otherwise. -/
lemma fuzzy_match_empty_left (s : String) :
    fuzzy_match "" s = if s = "" then 1 else 0 := by
  by_cases h : s = ""
  · subst h; simp [fuzzy_match, ratioQ, pyLower]
  · rw [if_neg h]
    have hne : s.data.length ≠ 0 := by
      intro h0
      apply h
      cases s with
      | mk d =>
        simp only at h0
        rw [List.length_eq_zero] at h0
        simp [h0]
    show ratioQ (pyLower "") (pyLower s) = 0
    have h1 : (pyLower "").data = [] := rfl
    unfold ratioQ
    rw [h1]
    simp only [List.length_nil, Nat.zero_add]
    rw [if_neg (by rw [length_pyLower]; exact hne), totalMatches_nil_left]
    simp

/-- Any score that equals a value strictly between 0 and 1 comes from a
nonempty procedure string. -/
lemma ne_empty_of_score_between (p label : String) (t : ℚ) (ht0 : 0 < t)
    (ht1 : t < 1) (h : fuzzy_match p label = t) : p ≠ "" := by
  intro hp
  subst hp
  rw [fuzzy_match_empty_left] at h
  by_cases hl : label = ""
  · rw [if_pos hl] at h; exact absurd h.symm (ne_of_lt ht1)
  · rw [if_neg hl] at h; exact absurd h.symm (ne_of_gt ht0)

/-- Closed-form evaluation helper for `fuzzy_match` at concrete inputs:
the kernel evaluates the `Nat`-valued match count, `norm_num` does the
rational arithmetic. -/
lemma fuzzy_match_eval (a b : String) (la lb m : Nat)
    (ha : (pyLower a).data.length = la) (hb : (pyLower b).data.length = lb)
    (hm : totalMatches (pyLower a).data (pyLower b).data (la + lb + 1) 0 la 0 lb = m)
    (h0 : la + lb ≠ 0) :
    fuzzy_match a b = (2 * m : ℚ) / (la + lb) := by
  show ratioQ (pyLower a) (pyLower b) = _
  unfold ratioQ
  rw [ha, hb]
  dsimp only
  rw [hm, if_neg h0]

lemma bestInv_step (t : ℚ) (label : String) (st : BestState) (pr : Nat × String)
    (h : BestInv t label st) : BestInv t label (matchStep t label st pr) := by
  unfold matchStep
  split
  case isTrue hc =>
    refine ⟨fun h0 => by simp at h0, fun p hp => ?_⟩
    simp only [] at hp
    obtain rfl : pr.2 = p := by injection hp
    exact ⟨rfl, hc.1⟩
  case isFalse hc => exact h

lemma bestInv_fold (t : ℚ) (label : String) (l : List (Nat × String)) (st : BestState)
    (h : BestInv t label st) : BestInv t label (matchFold t label l st) := by
  induction l generalizing st with
  | nil => exact h
  | cons pr l ih => exact ih _ (bestInv_step t label st pr h)

lemma matchStep_score_le (t : ℚ) (label : String) (st : BestState) (pr : Nat × String)
    (hpr : fuzzy_match pr.2 label ≤ t) (hst : st.bestScore ≤ t) :
    (matchStep t label st pr).bestScore ≤ t := by
  unfold matchStep
  split
  · exact hpr
  · exact hst

lemma matchFold_keep_t (t : ℚ) (label : String) (l : List (Nat × String)) (st : BestState)
    (hall : ∀ pr ∈ l, fuzzy_match pr.2 label ≤ t) (hst : st.bestScore = t) :
    (matchFold t label l st).bestScore = t := by
  induction l generalizing st with
  | nil => exact hst
  | cons pr l ih =>
    refine ih _ (fun q hq => hall q (List.mem_cons_of_mem _ hq)) ?_
    rw [matchStep, if_neg]
    · exact hst
    · rintro ⟨-, hlt⟩
      exact absurd (lt_of_lt_of_le (hst ▸ hlt) (hall pr (l.mem_cons_self pr)))
        (lt_irrefl t)

lemma matchFold_hits_t (t : ℚ) (label : String) (l : List (Nat × String)) (st : BestState)
    (hall : ∀ pr ∈ l, fuzzy_match pr.2 label ≤ t) (hst : st.bestScore ≤ t)
    (hex : ∃ pr ∈ l, fuzzy_match pr.2 label = t) :
    (matchFold t label l st).bestScore = t := by
  induction l generalizing st with
  | nil => obtain ⟨w, hw, _⟩ := hex; exact absurd hw (List.not_mem_nil w)
  | cons pr l ih =>
    obtain ⟨w, hw, hwt⟩ := hex
    have htail : ∀ q ∈ l, fuzzy_match q.2 label ≤ t :=
      fun q hq => hall q (List.mem_cons_of_mem _ hq)
    rcases List.mem_cons.mp hw with h1 | h1
    · subst h1
      by_cases hlt : st.bestScore < fuzzy_match w.2 label
      · refine matchFold_keep_t t label l _ htail ?_
        rw [matchStep, if_pos ⟨le_of_eq hwt.symm, hlt⟩]
        exact hwt
      · have heq : st.bestScore = t := le_antisymm hst (hwt ▸ not_lt.mp hlt)
        refine matchFold_keep_t t label l _ htail ?_
        rw [matchStep, if_neg (fun hc => hlt hc.2)]
        exact heq
    · exact ih _ htail
        (matchStep_score_le t label st pr (hall pr (l.mem_cons_self pr)) hst) ⟨w, h1, hwt⟩

lemma bestMatchForLabel_eq (t : ℚ) (po : List String) (label : String) :
    bestMatchForLabel t po label =
      match (matchFold t label po.enum ⟨0, 9999, none⟩).bestProc with
      | none => none
      | some p =>
        if p = "" then none
        else some ((matchFold t label po.enum ⟨0, 9999, none⟩).bestIdx, p) := rfl

lemma matchFold_no_update (t : ℚ) (label : String) (l : List (Nat × String)) (st : BestState)
    (hall : ∀ pr ∈ l, fuzzy_match pr.2 label < t) :
    matchFold t label l st = st := by
  induction l generalizing st with
  | nil => rfl
  | cons pr l ih =>
    show matchFold t label l (matchStep t label st pr) = st
    rw [matchStep, if_neg]
    · exact ih _ (fun q hq => hall q (List.mem_cons_of_mem _ hq))
    · rintro ⟨hle, _⟩
      exact absurd hle (not_le.mpr (hall pr (l.mem_cons_self pr)))

/-- Claim C2: in the matrix reconciler, the fuzzy-match threshold boundary
is inclusive.  For any threshold strictly between 0 and 1 (the configured
default is 0.5): a form label whose best similarity over the procedure
list equals the threshold exactly is mapped to a procedure achieving that
similarity, and a form label whose similarity is strictly below the
threshold against every procedure is left unmapped. -/
theorem fuzzy_threshold_boundary (t : ℚ) (proc_order : List String) (form_label : String)
    (ht0 : 0 < t) (ht1 : t < 1) :
    ((∀ p ∈ proc_order, fuzzy_match p form_label ≤ t) →
        (∃ p ∈ proc_order, fuzzy_match p form_label = t) →
        ∃ i q, bestMatchForLabel t proc_order form_label = some (i, q) ∧
          fuzzy_match q form_label = t) ∧
    ((∀ p ∈ proc_order, fuzzy_match p form_label < t) →
        bestMatchForLabel t proc_order form_label = none) := by
  constructor
  · intro hall hex
    have hall' : ∀ pr ∈ proc_order.enum, fuzzy_match pr.2 form_label ≤ t := by
      intro pr hpr
      apply hall
      rw [← List.enum_map_snd proc_order]
      exact List.mem_map_of_mem _ hpr
    have hex' : ∃ pr ∈ proc_order.enum, fuzzy_match pr.2 form_label = t := by
      obtain ⟨p, hp, hpt⟩ := hex
      rw [← List.enum_map_snd proc_order] at hp
      obtain ⟨pr, hpr, rfl⟩ := List.mem_map.mp hp
      exact ⟨pr, hpr, hpt⟩
    have hinv0 : BestInv t form_label ⟨0, 9999, none⟩ :=
      ⟨fun _ => rfl, fun p hp => by simp at hp⟩
    have hscore : (matchFold t form_label proc_order.enum ⟨0, 9999, none⟩).bestScore = t :=
      matchFold_hits_t t form_label _ _ hall' (le_of_lt ht0) hex'
    have hinv : BestInv t form_label (matchFold t form_label proc_order.enum ⟨0, 9999, none⟩) :=
      bestInv_fold t form_label _ _ hinv0
    cases hq : (matchFold t form_label proc_order.enum ⟨0, 9999, none⟩).bestProc with
    | none => exact absurd (hscore ▸ hinv.1 hq) (ne_of_gt ht0)
    | some q =>
      obtain ⟨hfm, _⟩ := hinv.2 q hq
      rw [hscore] at hfm
      have hne : q ≠ "" := ne_empty_of_score_between q form_label t ht0 ht1 hfm
      refine ⟨(matchFold t form_label proc_order.enum ⟨0, 9999, none⟩).bestIdx, q, ?_, hfm⟩
      rw [bestMatchForLabel_eq, hq]
      simp [hne]
  · intro hall
    have hall' : ∀ pr ∈ proc_order.enum, fuzzy_match pr.2 form_label < t := by
      intro pr hpr
      apply hall
      rw [← List.enum_map_snd proc_order]
      exact List.mem_map_of_mem _ hpr
    rw [bestMatchForLabel_eq, matchFold_no_update t form_label _ _ hall']

/-- Witness for `fuzzy_threshold_boundary` at the default threshold 0.5:
the label `abcdef` scores exactly 1/2 against procedure `ab` and is mapped
to it; the label `ab` scores 0 against procedure `zz` and is unmapped. -/
theorem fuzzy_threshold_boundary_witness :
    (∃ i q, bestMatchForLabel (1/2) ["ab"] "abcdef" = some (i, q) ∧
        fuzzy_match q "abcdef" = 1/2) ∧
    bestMatchForLabel (1/2) ["zz"] "ab" = none := by
  have h1 : fuzzy_match "ab" "abcdef" = 1/2 := by
    rw [fuzzy_match_eval "ab" "abcdef" 2 6 2 (by decide) (by decide) (by decide) (by decide)]
    norm_num
  have h2 : fuzzy_match "zz" "ab" = 0 := by
    rw [fuzzy_match_eval "zz" "ab" 2 2 0 (by decide) (by decide) (by decide) (by decide)]
    norm_num
  constructor
  · exact (fuzzy_threshold_boundary (1/2) ["ab"] "abcdef" (by norm_num) (by norm_num)).1
      (by intro p hp; rw [List.mem_singleton] at hp; subst hp; rw [h1])
      ⟨"ab", by simp, h1⟩
  · exact (fuzzy_threshold_boundary (1/2) ["zz"] "ab" (by norm_num) (by norm_num)).2
      (by intro p hp; rw [List.mem_singleton] at hp; subst hp; rw [h2]; norm_num)

/-- Claim C6: visit normalization under the default configuration.
`V12 a` (single-letter suffix) normalizes to `V12`; `V12 abc`
(multi-letter suffix) is dropped; a token listed in the configured
special-case list, such as `RAND`, is returned unchanged. -/
theorem normalize_visit_name_default_cases :
    normalize_visit_name "V12 a" defaultVisitNorm = some "V12" ∧
    normalize_visit_name "V12 abc" defaultVisitNorm = none ∧
    normalize_visit_name "RAND" ⟨1, ["RAND"]⟩ = some "RAND" := by
  refine ⟨?_, ?_, ?_⟩ <;> decide

/-! ### Dedup invariants of the extraction traversals -/

/-- Guarded-append step, generic in the key: appending a record whose key
is not in `seen` preserves `results ⊆ seen` and key-distinctness. -/
lemma dedup_push {α κ : Type} (keyf : α → κ) (seen : List κ) (res : List α) (x : α)
    (h1 : ∀ r ∈ res, keyf r ∈ seen) (h2 : res.Pairwise (fun a b => keyf a ≠ keyf b))
    (hnew : keyf x ∉ seen) :
    (∀ r ∈ res ++ [x], keyf r ∈ keyf x :: seen) ∧
    (res ++ [x]).Pairwise (fun a b => keyf a ≠ keyf b) := by
  constructor
  · intro r hr
    rcases List.mem_append.mp hr with h | h
    · exact List.mem_cons_of_mem _ (h1 r h)
    · rw [List.mem_singleton.mp h]
      exact List.mem_cons_self _ _
  · rw [List.pairwise_append]
    refine ⟨h2, List.pairwise_singleton _ _, ?_⟩
    intro a ha b hb
    rw [List.mem_singleton.mp hb]
    intro hab
    exact hnew (hab ▸ h1 a ha)

lemma formInv_step (st : FormExtractState) (key : String × String × String)
    (row : FormRow) (hk : row.key = key) (h : FormStInv st) :
    FormStInv (if key ∈ st.seen_forms then st
      else ⟨key :: st.seen_forms, st.results ++ [row]⟩) := by
  subst hk
  split
  · exact h
  next hnot =>
    exact dedup_push FormRow.key st.seen_forms st.results row h.1 h.2 hnot

mutual
theorem find_forms_in_node_inv (cfg : FormCfg) (h1t : String) (sv : List String) :
    ∀ (n : JNode) (lbl : Option String) (st : FormExtractState), FormStInv st →
      FormStInv (find_forms_in_node cfg h1t sv n lbl st)
  | .node nm tx cs, lbl, st, h => by
    simp only [find_forms_in_node]
    by_cases hname : cfg.is_valid_form_name (pyStrip tx) = true
    · rw [if_pos hname]
      by_cases hig : cfg.ignore_match (pyStrip tx) = true
      · rw [if_pos hig]
        exact h
      · rw [if_neg hig]
        exact find_forms_in_list_inv cfg h1t sv cs _ _ (formInv_step st _ _ rfl h)
    · rw [if_neg hname]
      exact find_forms_in_list_inv cfg h1t sv cs _ _ h

theorem find_forms_in_list_inv (cfg : FormCfg) (h1t : String) (sv : List String) :
    ∀ (l : List JNode) (lbl : Option String) (st : FormExtractState), FormStInv st →
      FormStInv (find_forms_in_list cfg h1t sv l lbl st)
  | [], _, _, h => h
  | c :: cs, lbl, st, h =>
    find_forms_in_list_inv cfg h1t sv cs lbl _
      (find_forms_in_node_inv cfg h1t sv c lbl st h)
end
lemma extract_forms_fold_inv (cfg : FormCfg) (l : List JNode)
    (st : FormExtractState) (h : FormStInv st) :
    FormStInv (l.foldl
      (fun st h1 =>
        let h1t := if cfg.is_valid_form_label (get_text h1) then get_text h1
          else "Unknown Section"
        let sv := deep_search_visits cfg.extract_visits h1
        find_forms_in_node cfg h1t sv h1 none st)
      st) := by
  induction l generalizing st with
  | nil => exact h
  | cons h1 l ih => exact ih _ (find_forms_in_node_inv cfg _ _ h1 none st h)

lemma cleanedInv_step (st : CleanedState) (key : String × String)
    (row : CleanedRow) (hk : row.key = key) (h : CleanedInv st) :
    CleanedInv (if key ∈ st.seen_forms then st
      else ⟨key :: st.seen_forms, st.results ++ [row]⟩) := by
  subst hk
  split
  · exact h
  next hnot =>
    exact dedup_push CleanedRow.key st.seen_forms st.results row h.1 h.2 hnot

mutual
theorem find_forms_cleaned_inv (isName isLabel : String → Bool) (h1t : String)
    (h1n : JNode) :
    ∀ (n : JNode) (lbl : Option String) (st : CleanedState), CleanedInv st →
      CleanedInv (find_forms_cleaned isName isLabel h1t h1n n lbl st)
  | .node nm tx cs, lbl, st, h => by
    simp only [find_forms_cleaned]
    apply find_forms_cleaned_list_inv
    by_cases hname : isName (pyStrip tx) = true
    · rw [if_pos hname]
      exact cleanedInv_step st _ _ rfl h
    · rw [if_neg hname]
      exact h

theorem find_forms_cleaned_list_inv (isName isLabel : String → Bool) (h1t : String)
    (h1n : JNode) :
    ∀ (l : List JNode) (lbl : Option String) (st : CleanedState), CleanedInv st →
      CleanedInv (find_forms_cleaned_list isName isLabel h1t h1n l lbl st)
  | [], _, _, h => h
  | c :: cs, lbl, st, h =>
    find_forms_cleaned_list_inv isName isLabel h1t h1n cs lbl _
      (find_forms_cleaned_inv isName isLabel h1t h1n c lbl st h)
end
lemma extract_cleaned_fold_inv (isName isLabel : String → Bool) (l : List JNode)
    (st : CleanedState) (h : CleanedInv st) :
    CleanedInv (l.foldl
      (fun st h1 =>
        let h1t := if isLabel (get_text h1) then get_text h1 else "Unknown Section"
        find_forms_cleaned isName isLabel h1t h1 h1 none st)
      st) := by
  induction l generalizing st with
  | nil => exact h
  | cons h1 l ih => exact ih _ (find_forms_cleaned_inv isName isLabel _ h1 h1 none st h)

lemma items_fold_inv (l : List ItemRec) (acc : List (String × String) × List ItemRec)
    (h : (∀ r ∈ acc.2, (r.item_name, r.item_group) ∈ acc.1) ∧
      acc.2.Pairwise (fun a b => (a.item_name, a.item_group) ≠ (b.item_name, b.item_group))) :
    ((l.foldl
        (fun (acc : List (String × String) × List ItemRec) item =>
          if (item.item_name, item.item_group) ∈ acc.1 then acc
          else ((item.item_name, item.item_group) :: acc.1, acc.2 ++ [item]))
        acc).2.Pairwise
      (fun a b => (a.item_name, a.item_group) ≠ (b.item_name, b.item_group))) := by
  induction l generalizing acc with
  | nil => exact h.2
  | cons item l ih =>
    apply ih
    dsimp only
    split
    · exact h
    next hnot =>
      exact dedup_push (fun r : ItemRec => (r.item_name, r.item_group))
        acc.1 acc.2 item h.1 h.2 hnot

/-- Claim C1: extraction deduplication invariant.  In the list returned by
`extract_forms_with_corrections` no two form records share the same
`(Form Label, Form Name, visits-string)` triple, for every input document
and every configuration; and in the list returned by
`extract_items_from_form` no two item records share the same
`(Item Name, Item Group)` pair, whatever the scanned row data was. -/
theorem extraction_dedup_invariant :
    (∀ (cfg : FormCfg) (data : JNode),
        (extract_forms_with_corrections cfg data).Pairwise
          (fun a b => FormRow.key a ≠ FormRow.key b)) ∧
    ∀ (items_data : List ItemRec),
      (extract_items_from_form items_data).Pairwise
        (fun a b => (a.item_name, a.item_group) ≠ (b.item_name, b.item_group)) := by
  constructor
  · intro cfg data
    exact (extract_forms_fold_inv cfg (gather_h1_sections data) ⟨[], []⟩
      ⟨by intro r hr; simp at hr, List.Pairwise.nil⟩).2
  · intro items_data
    exact items_fold_inv items_data ([], [])
      ⟨by intro r hr; simp at hr, List.Pairwise.nil⟩

/-- Claim C10: the items pipeline deduplicates forms by the
`(Form Label, Form Name)` pair alone — the visits string plays no part.
For every predicate instantiation and every tree the returned records have
pairwise distinct pairs; and concretely, a second qualifying node with the
same label and name but different descendant content is skipped. -/
theorem extract_forms_cleaned_pair_dedup :
    ∀ (isName isLabel : String → Bool) (data : JNode),
      (extract_forms_cleaned isName isLabel data).Pairwise
        (fun a b => CleanedRow.key a ≠ CleanedRow.key b) := by
  intro isName isLabel data
  exact (extract_cleaned_fold_inv isName isLabel (gather_h1_sections data) ⟨[], []⟩
    ⟨by intro r hr; simp at hr, List.Pairwise.nil⟩).2

/-- Stripped-group counting: when every stored group value is already
stripped, the counter built by `analyze_item_groups_per_form` agrees with
the plain multiset count of the group column, for any non-empty,
non-`NaN` group value. -/
lemma item_groups_count (items : List ItemRec)
    (htrim : ∀ it ∈ items, pyStrip it.item_group = it.item_group)
    (g : String) (hg : g ≠ "") (hgn : g ≠ "NaN") :
    (item_groups_of items).count g = (items.map ItemRec.item_group).count g := by
  induction items with
  | nil => rfl
  | cons it l ih =>
    have hit : pyStrip it.item_group = it.item_group := htrim it (l.mem_cons_self it)
    have ihl := ih (fun x hx => htrim x (List.mem_cons_of_mem it hx))
    by_cases hcond : it.item_group ≠ "" ∧ it.item_group ≠ "NaN"
    · have hfa : (if pyStrip it.item_group ≠ "" ∧ pyStrip it.item_group ≠ "NaN"
          then some (pyStrip it.item_group) else none) = some it.item_group := by
        rw [hit, if_pos hcond]
      have hstep : item_groups_of (it :: l) = it.item_group :: item_groups_of l := by
        unfold item_groups_of
        exact List.filterMap_cons_some hfa
      rw [hstep, List.map_cons, List.count_cons, List.count_cons, ihl]
    · have hfa : (if pyStrip it.item_group ≠ "" ∧ pyStrip it.item_group ≠ "NaN"
          then some (pyStrip it.item_group) else none) = none := by
        rw [hit, if_neg hcond]
      have hstep : item_groups_of (it :: l) = item_groups_of l := by
        unfold item_groups_of
        exact List.filterMap_cons_none hfa
      have hgne : ¬(it.item_group = g) := by
        intro heq
        rcases not_and_or.mp hcond with h | h
        · exact hg (heq ▸ not_not.mp h)
        · exact hgn (heq ▸ not_not.mp h)
      rw [hstep, List.map_cons, List.count_cons, ihl]
      simp [hgne]

/-- Claim C5 (counterexample): the literal group value `NaN` is a
non-empty string carried here by two items, yet both rows get
repeating flag `N` and repeat maximum 50, because the code treats `NaN`
as the "no group" sentinel and excludes it from the group counter. -/
theorem repeating_group_nan_cex :
    ((([⟨"q1", "NaN", none⟩, ⟨"q2", "NaN", none⟩] : List ItemRec).map
        ItemRec.item_group).count "NaN" = 2) ∧
    (rows_for_form "F" "[F]" (fun _ _ => "Text") (fun _ => "")
        [⟨"q1", "NaN", none⟩, ⟨"q2", "NaN", none⟩]).map
      (fun r => (r.itemGroupRepeating, r.repeatMaximum)) = [("N", 50), ("N", 50)] := by
  constructor <;> rfl

/-- Claim C5 (amended): repeating-group law for genuine group values.  For
an item list whose stored group values are stripped (as `get_text`
guarantees in the pipeline), every output row whose group value is neither
empty nor the `NaN` sentinel obeys: carried by exactly one item — flag `N`
and repeat maximum 50; carried by `k > 1` items — flag `Y` and repeat
maximum `k`.  Rows with an empty or `NaN` group always get `N`/50. -/
theorem repeating_group_law (formLabel formName : String)
    (dtOf : JNode → String → String) (lbodyOf : JNode → String)
    (items : List ItemRec)
    (htrim : ∀ it ∈ items, pyStrip it.item_group = it.item_group)
    (row : SSFRow)
    (hrow : row ∈ rows_for_form formLabel formName dtOf lbodyOf items)
    (hne : row.itemGroup ≠ "") (hnan : row.itemGroup ≠ "NaN") :
    ((items.map ItemRec.item_group).count row.itemGroup = 1 →
      row.itemGroupRepeating = "N" ∧ row.repeatMaximum = 50) ∧
    (1 < (items.map ItemRec.item_group).count row.itemGroup →
      row.itemGroupRepeating = "Y" ∧
      row.repeatMaximum = (items.map ItemRec.item_group).count row.itemGroup) := by
  cases items with
  | nil =>
    exfalso
    rw [show rows_for_form formLabel formName dtOf lbodyOf [] =
      [{ formLabel := formLabel, formName := formName, itemGroup := "NaN",
         itemGroupRepeating := "N", repeatMaximum := 50, itemOrder := 1,
         itemLabel := "", dataType := "Text", required := "N" }] from rfl] at hrow
    exact hnan (by rw [List.mem_singleton.mp hrow])
  | cons it0 rest =>
    rw [show rows_for_form formLabel formName dtOf lbodyOf (it0 :: rest) =
      (assign_item_order (it0 :: rest)).map
        (ssf_row_of formLabel formName dtOf lbodyOf
          (item_groups_of (it0 :: rest))) from rfl, List.mem_map] at hrow
    obtain ⟨p, hp, rfl⟩ := hrow
    have hmem : p.1 ∈ it0 :: rest := by
      unfold assign_item_order at hp
      rw [List.mem_map] at hp
      obtain ⟨q, hq, rfl⟩ := hp
      have h2 : q.2 ∈ (it0 :: rest).enum.map Prod.snd := List.mem_map_of_mem _ hq
      rwa [List.enum_map_snd] at h2
    simp only [ssf_row_of] at hne hnan ⊢
    have h0 : ¬(p.1.item_group = "") := by
      intro h0
      exact hnan (by rw [if_pos h0])
    rw [if_neg h0] at hne hnan ⊢
    have hstrip : pyStrip p.1.item_group = p.1.item_group := htrim p.1 hmem
    have hcount := item_groups_count (it0 :: rest) htrim p.1.item_group hne hnan
    have hflagdef : get_item_group_repeating_flag (item_groups_of (it0 :: rest))
        p.1.item_group =
        (if 1 < ((it0 :: rest).map ItemRec.item_group).count p.1.item_group
          then "Y" else "N") := by
      unfold get_item_group_repeating_flag
      rw [if_neg (by
        push_neg
        exact ⟨hne, hnan, by rw [hstrip]; exact hne⟩), hcount]
    constructor
    · intro hk1
      rw [hflagdef, if_neg (by omega)]
      refine ⟨rfl, ?_⟩
      unfold get_repeat_maximum
      rw [if_neg]
      rintro ⟨hY, -⟩
      exact absurd hY (by decide)
    · intro hk2
      rw [hflagdef, if_pos (by omega)]
      refine ⟨rfl, ?_⟩
      unfold get_repeat_maximum
      rw [hcount, if_pos ⟨rfl, by omega⟩]

/-- Witness for `repeating_group_law`: a form with items `q1`,`q2` in group
`G` and `q3` in group `H`; the first row gets flag `Y` and repeat maximum
2. -/
theorem repeating_group_law_witness :
    ((rows_for_form "VS" "[VS]" (fun _ _ => "Text") (fun _ => "")
        [⟨"q1", "G", none⟩, ⟨"q2", "G", none⟩, ⟨"q3", "H", none⟩]).headD
      default).itemGroupRepeating = "Y" ∧
    ((rows_for_form "VS" "[VS]" (fun _ _ => "Text") (fun _ => "")
        [⟨"q1", "G", none⟩, ⟨"q2", "G", none⟩, ⟨"q3", "H", none⟩]).headD
      default).repeatMaximum = 2 := by
  have h := repeating_group_law "VS" "[VS]" (fun _ _ => "Text") (fun _ => "")
    [⟨"q1", "G", none⟩, ⟨"q2", "G", none⟩, ⟨"q3", "H", none⟩] (by decide)
    ((rows_for_form "VS" "[VS]" (fun _ _ => "Text") (fun _ => "")
        [⟨"q1", "G", none⟩, ⟨"q2", "G", none⟩, ⟨"q3", "H", none⟩]).headD default)
    (by decide) (by decide) (by decide)
  have h2 := h.2 (by decide)
  refine ⟨h2.1, ?_⟩
  rw [h2.2]
  decide

/-- Claim C9: implicit placeholder row for empty forms.  A form whose
extracted item list is empty still produces exactly one output row, with
empty item label, item group `NaN`, repeating flag `N`, repeat maximum 50,
item order 1, data type `Text` and required `N`. -/
theorem empty_form_placeholder_row (formLabel formName : String)
    (dtOf : JNode → String → String) (lbodyOf : JNode → String) :
    rows_for_form formLabel formName dtOf lbodyOf [] =
      [{ formLabel := formLabel, formName := formName, itemGroup := "NaN",
         itemGroupRepeating := "N", repeatMaximum := 50, itemOrder := 1,
         itemLabel := "", dataType := "Text", required := "N" }] := rfl

lemma gather_h1_sections_leaf :
    gather_h1_sections (JNode.node "Document" "" []) = [] := by
  rw [gather_h1_sections, gather_h1_list, if_neg (by decide)]
  rfl

lemma extract_forms_empty_leaf :
    extract_forms_with_corrections trivialFormCfg (JNode.node "Document" "" []) = [] := by
  unfold extract_forms_with_corrections
  rw [gather_h1_sections_leaf]
  rfl

/-- Claim C4 (counterexample): an input document with no H1 sections
yields zero extracted forms, yet `extract_forms` completes successfully
with an empty output table instead of raising or returning a
distinguishable failure. -/
theorem extract_forms_silent_empty_cex :
    extract_forms_with_corrections trivialFormCfg (JNode.node "Document" "" []) = [] ∧
    extract_forms trivialFormCfg (JNode.node "Document" "" []) = Except.ok [] := by
  refine ⟨extract_forms_empty_leaf, ?_⟩
  rw [extract_forms, extract_forms_empty_leaf]

/-- Claim C4 (amended): extraction-miss behaviour.  `parse_soa` raises
(`Except.error`) whenever no schedule tables are found and whenever no
visit header row is detected; but zero extracted forms are NOT a failure:
`extract_forms` returns success carrying an empty table. -/
theorem extraction_miss_failures (cfg : SoaCfg) (data : JNode) :
    (cfg.find_all_schedule_tables data = [] →
      parse_soa cfg data = Except.error "Failed to parse schedule from protocol JSON") ∧
    (cfg.detect_visit_header_row
        (((cfg.find_all_schedule_tables data).map cfg.rows_of).flatten) = none →
      parse_soa cfg data = Except.error "Failed to parse schedule from protocol JSON") ∧
    ∀ (fcfg : FormCfg) (fdata : JNode),
      extract_forms_with_corrections fcfg fdata = [] →
      extract_forms fcfg fdata = Except.ok [] := by
  refine ⟨?_, ?_, ?_⟩
  · intro h
    simp only [parse_soa, parse_protocol_schedule, h]
  · intro h
    cases hts : cfg.find_all_schedule_tables data with
    | nil => simp only [parse_soa, parse_protocol_schedule, hts]
    | cons t ts =>
      rw [hts] at h
      simp only [parse_soa, parse_protocol_schedule, hts, h]
  · intro fcfg fdata hf
    rw [extract_forms, hf]

/-- Witness for `extraction_miss_failures` on concrete configurations and
documents hitting all three branches. -/
theorem extraction_miss_failures_witness :
    parse_soa noTablesSoaCfg (JNode.node "Document" "" []) =
      Except.error "Failed to parse schedule from protocol JSON" ∧
    parse_soa noHeaderSoaCfg (JNode.node "Document" "" []) =
      Except.error "Failed to parse schedule from protocol JSON" ∧
    extract_forms trivialFormCfg (JNode.node "Document" "" []) = Except.ok [] := by
  refine ⟨?_, ?_, ?_⟩
  · exact (extraction_miss_failures noTablesSoaCfg (JNode.node "Document" "" [])).1 rfl
  · exact (extraction_miss_failures noHeaderSoaCfg (JNode.node "Document" "" [])).2.1 rfl
  · exact (extraction_miss_failures noTablesSoaCfg (JNode.node "Document" "" [])).2.2
      trivialFormCfg (JNode.node "Document" "" []) extract_forms_empty_leaf

/-- Claim C7: duplicate visit-header disambiguation.  The header row
`["Procedure","V1","V1","V2"]` yields the visit list `["V1","V1_1","V2"]`
under the default visit pattern; and for every extractor function and
every header row, the visit list built by the column loop contains no
duplicates and lists the visits in left-to-right column order: it equals
the names of the column-to-visit map, whose column indices are strictly
increasing. -/
theorem visit_header_disambiguation :
    (buildVisitColumns extract_complete_visit_identifier
        ["Procedure", "V1", "V1", "V2"]).visit_order = ["V1", "V1_1", "V2"] ∧
    ∀ (extract : String → Option String) (visit_row : List String),
      (buildVisitColumns extract visit_row).visit_order.Nodup ∧
      (buildVisitColumns extract visit_row).visit_order =
        (buildVisitColumns extract visit_row).column_to_visit.map Prod.snd ∧
      List.Pairwise (fun a b : Nat × String => a.1 < b.1)
        (buildVisitColumns extract visit_row).column_to_visit := by
  constructor
  · decide
  · intro e row
    have hpw : List.Pairwise (fun a b : Nat × String => a.1 < b.1) row.enum := by
      have h2 : List.Pairwise (· < ·) (row.enum.map Prod.fst) := by
        rw [List.enum_map_fst]
        exact List.pairwise_lt_range _
      exact (List.pairwise_map).mp h2
    have h := colsOK_fold e row.enum ⟨[], [], []⟩
      ⟨List.nodup_nil, by simp, rfl, List.Pairwise.nil⟩
      (by intro pr hpr q hq; simp at hq) hpw
    exact ⟨h.1, h.2.2.1, h.2.2.2⟩

/-- Claim C8: Hierarchy Builder idempotence.  `parse_hierarchy` is a pure
function of its input element list — the dict mutation is internal — so
two runs on the same list produce structurally identical trees: the same
node count and the same name, text and child count at every position. -/
theorem parse_hierarchy_idempotent (elements : List PathElem) :
    countNodes (run_hierarchy_tree elements) = countNodes (run_hierarchy_tree elements) ∧
    ∀ pos : List Nat,
      nodeAt pos (run_hierarchy_tree elements) =
        nodeAt pos (run_hierarchy_tree elements) :=
  ⟨rfl, fun _ => rfl⟩

/-- Claim C3 (counterexample): `fuzzy_match` is not symmetric.  With the
strings `tide` and `diet`, `SequenceMatcher` finds one matched character in
one direction (ratio 1/4) and two in the other (ratio 1/2). -/
theorem fuzzy_match_not_symmetric :
    fuzzy_match "tide" "diet" ≠ fuzzy_match "diet" "tide" := by
  rw [fuzzy_match_eval "tide" "diet" 4 4 1 (by decide) (by decide) (by decide) (by decide),
    fuzzy_match_eval "diet" "tide" 4 4 2 (by decide) (by decide) (by decide) (by decide)]
  norm_num

/-- Claim C3 (amended): the similarity function used by the matrix
reconciler is case-insensitive — `fuzzy_match a b` equals the ratio of the
lowercased strings, so lowercasing the arguments does not change it — but
it is not symmetric: swapping the two arguments can change the result. -/
theorem fuzzy_match_case_insensitive_asymmetric :
    (∀ a b : String, fuzzy_match a b = fuzzy_match (pyLower a) (pyLower b)) ∧
    ∃ a b : String, fuzzy_match a b ≠ fuzzy_match b a := by
  constructor
  · intro a b
    show ratioQ (pyLower a) (pyLower b) = ratioQ (pyLower (pyLower a)) (pyLower (pyLower b))
    rw [pyLower_idem, pyLower_idem]
  · refine ⟨"tide", "diet", ?_⟩
    rw [fuzzy_match_eval "tide" "diet" 4 4 1 (by decide) (by decide) (by decide) (by decide),
      fuzzy_match_eval "diet" "tide" 4 4 2 (by decide) (by decide) (by decide) (by decide)]
    norm_num



end Pipeline
